import Mathlib

/-!
Verification development for the chromatic-tuner pitch pipeline
(`src/assets/js/script.js`).

The pipeline is embedded shallowly:

* the autocorrelator (`autoCorrelate`, `correlationShift`) is embedded over ℚ;
  sample buffers are `List ℚ`.  JavaScript typed-array reads outside
  `[0, length)` give `undefined`; the total model (`readD`) returns `0` there,
  and a parallel checked model (`readChecked`) returns `none`, which is used to
  reason about read safety.
* the pitch mapper (`noteFromPitch`, `centsOffFromPitch`) uses real logarithms
  and is embedded over ℝ.
* the per-cycle engine (`updatePitch`) is embedded as a pure transition
  function on an explicit `TunerState`.
-/

/-- One buffer read at integer index `k`, total model: out-of-range reads
return `0`.  (In the JavaScript source such a read gives `undefined`, which
poisons the arithmetic; see `readChecked` for the model that tracks this.) -/
def readD (b : List ℚ) (k : ℤ) : ℚ :=
  if 0 ≤ k ∧ k < (b.length : ℤ) then b.getD k.toNat 0 else 0

/-- One buffer read at integer index `k`, checked model: out-of-range reads
return `none`. -/
def readChecked (b : List ℚ) (k : ℤ) : Option ℚ :=
  if 0 ≤ k ∧ k < (b.length : ℤ) then some (b.getD k.toNat 0) else none

/-- Inner loop shared by `autoCorrelate` and `correlationShift`: cumulative
absolute difference between the first `M` samples and their shift by `off`. -/
def absDiffSum (b : List ℚ) (M : ℕ) (off : ℤ) : ℚ :=
  (List.range M).foldl (fun acc (j : ℕ) => acc + |readD b (j : ℤ) - readD b ((j : ℤ) + off)|) 0

/-- Checked variant of `absDiffSum`: `none` as soon as any read of the loop is
out of range. -/
def absDiffSumChecked (b : List ℚ) (M : ℕ) (off : ℤ) : Option ℚ :=
  (List.range M).foldl
    (fun acc (j : ℕ) => do
      let a ← acc
      let x ← readChecked b (j : ℤ)
      let y ← readChecked b ((j : ℤ) + off)
      pure (a + |x - y|))
    (some 0)

/-- Loop of `correlationShift` from the source.  The source iterates
`i = 0 .. 15`; `fuel` counts the remaining iterations (initially 16), so the
recursion is structural and the function evaluates by kernel reduction. -/
def correlationShiftAux (b : List ℚ) (M offset : ℕ) :
    ℕ → ℕ → ℤ → ℚ → ℤ
  | 0, _, best_offset, _ => best_offset
  | fuel + 1, i, best_offset, best_correlation =>
    let cc := absDiffSum b M ((offset : ℤ) + (i : ℤ))
    let cc_prev := absDiffSum b M ((offset : ℤ) + (i : ℤ) - 1)
    let bo := if i = 0 ∨ cc < best_correlation then (i : ℤ) else best_offset
    let bc := if i = 0 ∨ cc < best_correlation then cc else best_correlation
    if cc_prev < cc then bo
    else correlationShiftAux b M offset fuel (i + 1) bo bc

/-- Sub-lag refinement search (`correlationShift` in the source): 16 steps,
tracks the step minimizing the cumulative absolute-difference correlation,
stops early once that correlation exceeds the previous lag's. -/
def correlationShift (b : List ℚ) (M offset : ℕ) : ℤ :=
  correlationShiftAux b M offset 16 0 (-1) 0

/-- Checked variant of the refinement loop: `none` as soon as any buffer read
of an executed step is out of range.  (The source computes `cc` and `cc_prev`
in one pass over `j`; an out-of-range read occurs in that pass iff it occurs
in one of the two sums.) -/
def correlationShiftCheckedAux (b : List ℚ) (M offset : ℕ) :
    ℕ → ℕ → ℤ → ℚ → Option ℤ
  | 0, _, best_offset, _ => some best_offset
  | fuel + 1, i, best_offset, best_correlation => do
    let cc ← absDiffSumChecked b M ((offset : ℤ) + (i : ℤ))
    let cc_prev ← absDiffSumChecked b M ((offset : ℤ) + (i : ℤ) - 1)
    let bo := if i = 0 ∨ cc < best_correlation then (i : ℤ) else best_offset
    let bc := if i = 0 ∨ cc < best_correlation then cc else best_correlation
    if cc_prev < cc then some bo
    else correlationShiftCheckedAux b M offset fuel (i + 1) bo bc

/-- Checked sub-lag refinement search. -/
def correlationShiftChecked (b : List ℚ) (M offset : ℕ) : Option ℤ :=
  correlationShiftCheckedAux b M offset 16 0 (-1) 0

/-- Main lag scan of `autoCorrelate` from the source.  The source iterates
`offset = 0 .. MAX_SAMPLES - 1`; `fuel = MAX_SAMPLES - offset` counts the
remaining iterations so the recursion is structural. -/
def autoCorrelateAux (b : List ℚ) (sampleRate : ℚ) (M : ℕ) :
    ℕ → ℕ → ℤ → ℚ → Bool → ℚ → ℚ
  | 0, _, bestOffset, bestCorrelation, _, _ =>
    if 1/100 < bestCorrelation then sampleRate / (bestOffset : ℚ) else -1
  | fuel + 1, offset, bestOffset, bestCorrelation, foundGoodCorrelation, lastCorrelation =>
    let correlation := 1 - absDiffSum b M (offset : ℤ) / (M : ℚ)
    if 9/10 < correlation ∧ lastCorrelation < correlation then
      autoCorrelateAux b sampleRate M fuel (offset + 1)
        (if bestCorrelation < correlation then (offset : ℤ) else bestOffset)
        (if bestCorrelation < correlation then correlation else bestCorrelation)
        true correlation
    else if foundGoodCorrelation then
      sampleRate / ((bestOffset : ℚ) + ((correlationShift b M offset : ℚ) - 8) / 32)
    else
      autoCorrelateAux b sampleRate M fuel (offset + 1) bestOffset bestCorrelation
        foundGoodCorrelation correlation

/-- Squared RMS of the block.  The source computes `rms = sqrt(rmsSq)` and
tests `rms < 0.01`; both sides of that test are nonnegative, so it is
equivalent to `rmsSq < 1/10000`, which keeps the embedding inside ℚ. -/
def rmsSq (b : List ℚ) : ℚ := (b.map (fun v => v * v)).sum / (b.length : ℚ)

/-- Pitch estimator (`autoCorrelate` in the source): `-1` is the "no pitch"
sentinel. -/
def autoCorrelate (b : List ℚ) (sampleRate : ℚ) : ℚ :=
  let M := b.length / 2
  if rmsSq b < 1/10000 then -1
  else autoCorrelateAux b sampleRate M M 0 (-1) 0 false 1

/-- Normalized difference correlation at a lag, exactly as computed inside the
scan. -/
def corrAt (b : List ℚ) (M off : ℕ) : ℚ := 1 - absDiffSum b M (off : ℤ) / (M : ℚ)

/-- Value held by `lastCorrelation` when lag `off` is examined (initially 1). -/
def prevCorr (b : List ℚ) (M off : ℕ) : ℚ :=
  if off = 0 then 1 else corrAt b M (off - 1)

/-- A lag at which the scan records a rising good correlation: correlation
exceeds 0.9 and exceeds the previous lag's correlation. -/
def risingAt (b : List ℚ) (M off : ℕ) : Prop :=
  9/10 < corrAt b M off ∧ prevCorr b M off < corrAt b M off

instance (b : List ℚ) (M off : ℕ) : Decidable (risingAt b M off) :=
  inferInstanceAs (Decidable (_ ∧ _))

/-- Best accepted lag (and its correlation) after the scan has examined all
lags `< t`: the highest-correlation lag among those recorded as rising, the
earliest on ties, `(-1, 0)` when none was accepted. -/
def bestScan (b : List ℚ) (M t : ℕ) : ℤ × ℚ :=
  (List.range t).foldl
    (fun s k => if risingAt b M k ∧ s.2 < corrAt b M k then ((k : ℤ), corrAt b M k) else s)
    (-1, 0)

/-- MIDI note index from a frequency (`noteFromPitch` in the source):
`Math.round(12 * (Math.log(f / 440) / Math.log(2))) + 69`.  JavaScript
`Math.round` rounds half toward positive infinity, exactly Mathlib `round`. -/
noncomputable def noteFromPitch (frequency : ℝ) : ℤ :=
  round (12 * (Real.log (frequency / 440) / Real.log 2)) + 69

/-- Frequency of a MIDI note (`frequencyFromNoteNumber` in the source):
`440 * Math.pow(2, (note - 69) / 12)`. -/
noncomputable def frequencyFromNoteNumber (note : ℤ) : ℝ :=
  440 * (2 : ℝ) ^ (((note : ℝ) - 69) / 12)

/-- Signed cents deviation (`centsOffFromPitch` in the source):
`Math.floor(1200 * Math.log(f / frequencyFromNoteNumber(note)) / Math.log(2))`. -/
noncomputable def centsOffFromPitch (frequency : ℝ) (note : ℤ) : ℤ :=
  ⌊1200 * Real.log (frequency / frequencyFromNoteNumber note) / Real.log 2⌋

/-- Reference contract from the spec (for comparison with `noteFromPitch`):
`round(12 * log2(freq / 440)) + 69`. -/
noncomputable def spec_noteIndexFromFrequency (freq : ℝ) : ℤ :=
  round (12 * Real.logb 2 (freq / 440)) + 69

/-- Reference contract from the spec (for comparison with `centsOffFromPitch`):
`floor(1200 * log2(freq / frequencyOfNote(n)))`, `frequencyOfNote(n) = 440 * 2^((n-69)/12)`. -/
noncomputable def spec_centsOffset (freq : ℝ) (n : ℤ) : ℤ :=
  ⌊1200 * Real.logb 2 (freq / (440 * (2 : ℝ) ^ (((n : ℝ) - 69) / 12)))⌋

/-- Fixed 12-element note-name alphabet (`noteStrings` in the source):
C, C#, D, D#, E, F, F#, G, G#, A, A#, B. -/
def noteStrings : List String :=
  ["C", "C#", "D", "D#", "E", "F"] ++ ["F#", "G", "G#", "A", "A#", "B"]

/-- Capacity of the frequency history (`frequencyBufferSize = 10`). -/
def frequencyBufferSize : ℕ := 10

/-- Capacity of the note history (`noteBufferSize = 5`). -/
def noteBufferSize : ℕ := 5

/-- Occurrence count used by `findMostFrequent`'s comparator
(`arr.filter(v => v === a).length`). -/
def countIn (arr : List String) (v : String) : ℕ :=
  (arr.filter (fun x => x == v)).length

/-- Model of `findMostFrequent`.  JavaScript `arr.sort(cmp)` sorts the array
IN PLACE — stable, here ascending by occurrence count — and `arr.pop()`
removes and returns its last element.  The source therefore both returns a
most-frequent element and mutates its argument; the model returns the read
value together with the array's new contents.  (The comparator's counts
depend only on the array's multiset of elements, which sorting preserves, so
a stable sort by the count key is the deterministic result.) -/
def findMostFrequent (arr : List String) : Option String × List String :=
  let sorted := arr.mergeSort (fun a b => countIn arr a ≤ countIn arr b)
  (sorted.getLast?, sorted.dropLast)

/-- Needle angle in degrees from cents (`setNeedle` in the source):
`Math.max(-45, Math.min(45, cents / 2))`. -/
noncomputable def setNeedleAngle (cents : ℝ) : ℝ := max (-45) (min 45 (cents / 2))

open scoped Classical in
/-- Indicator label (`updateFlatSharpIndicator` in the source). -/
noncomputable def flatSharpText (cents : ℝ) : String :=
  if |cents| < 5 then "In tune" else if cents < 0 then "Flat" else "Sharp"

/-- Cross-cycle engine state together with the display outputs driven by
`updatePitch`.  Display text is modelled structurally: `frequencyDisplay =
none` renders as "- Hz" and `some f` as the frequency readout; `noteDisplay`
and `flatSharpIndicator` hold the displayed strings; `needleAngle` is the
needle rotation in degrees. -/
structure TunerState where
  frequencyBuffer : List ℝ
  smoothedCents : ℝ
  noteBuffer : List String
  noteDisplay : String
  frequencyDisplay : Option ℝ
  flatSharpIndicator : String
  needleAngle : ℝ

/-- State when the tuner starts listening: empty buffers, zero cents, neutral
display. -/
noncomputable def tunerInit : TunerState :=
  { frequencyBuffer := []
    smoothedCents := 0
    noteBuffer := []
    noteDisplay := "-"
    frequencyDisplay := none
    flatSharpIndicator := ""
    needleAngle := 0 }

/-- Validity gate applied to the estimate each cycle
(`ac !== -1 && isFinite(ac) && ac > 0` in the source).  Every real number is
finite, so the `isFinite` conjunct is identically true in this embedding. -/
def validEstimate (ac : ℝ) : Prop := ac ≠ -1 ∧ 0 < ac

open scoped Classical in
/-- One processing cycle (`updatePitch` in the source), as a pure transition
function of the engine state and this cycle's pitch estimate `ac`.
JavaScript notes: `note % 12` is the truncating remainder (`Int.tmod`), and a
negative index into `noteStrings` reads `undefined` — modelled by the string
"undefined"; `if (mostFrequentNote)` treats `undefined` (no element) and the
empty string as falsy, leaving the display unchanged. -/
noncomputable def updatePitch (s : TunerState) (ac : ℝ) : TunerState :=
  if validEstimate ac then
    let frequencyBuffer1 := s.frequencyBuffer ++ [ac]
    let frequencyBuffer2 :=
      if frequencyBufferSize < frequencyBuffer1.length then frequencyBuffer1.tail
      else frequencyBuffer1
    let smoothedFrequency := frequencyBuffer2.sum / (frequencyBuffer2.length : ℝ)
    let note := noteFromPitch smoothedFrequency
    let noteName :=
      if 0 ≤ note.tmod 12 then noteStrings.getD (note.tmod 12).toNat "undefined"
      else "undefined"
    let cents := centsOffFromPitch smoothedFrequency note
    let smoothedCents2 := s.smoothedCents * 0.8 + (cents : ℝ) * 0.2
    let noteBuffer1 := s.noteBuffer ++ [noteName]
    let noteBuffer2 :=
      if noteBufferSize < noteBuffer1.length then noteBuffer1.tail else noteBuffer1
    let mf := findMostFrequent noteBuffer2
    { frequencyBuffer := frequencyBuffer2
      smoothedCents := smoothedCents2
      noteBuffer := mf.2
      noteDisplay :=
        match mf.1 with
        | some m => if m = "" then s.noteDisplay else m
        | none => s.noteDisplay
      frequencyDisplay := some smoothedFrequency
      flatSharpIndicator := flatSharpText smoothedCents2
      needleAngle := setNeedleAngle smoothedCents2 }
  else
    { frequencyBuffer := []
      smoothedCents := s.smoothedCents
      noteBuffer := []
      noteDisplay := "-"
      frequencyDisplay := none
      flatSharpIndicator := ""
      needleAngle := setNeedleAngle 0 }

/-- A sequence of processing cycles: fold `updatePitch` over the per-cycle
pitch estimates, oldest first. -/
noncomputable def runCycles (s : TunerState) (acs : List ℝ) : TunerState :=
  acs.foldl updatePitch s

/-- Frequency-history update performed by one valid cycle, in isolation. -/
def frequencyStep (ac : ℝ) (l : List ℝ) : List ℝ :=
  if frequencyBufferSize < (l ++ [ac]).length then (l ++ [ac]).tail else l ++ [ac]

/-- The smoothed frequency computed by a valid cycle. -/
noncomputable def smoothedFrequencyOf (s : TunerState) (ac : ℝ) : ℝ :=
  (frequencyStep ac s.frequencyBuffer).sum / ((frequencyStep ac s.frequencyBuffer).length : ℝ)

/-- The note name computed by a valid cycle. -/
noncomputable def noteNameOf (s : TunerState) (ac : ℝ) : String :=
  if 0 ≤ (noteFromPitch (smoothedFrequencyOf s ac)).tmod 12 then
    noteStrings.getD ((noteFromPitch (smoothedFrequencyOf s ac)).tmod 12).toNat "undefined"
  else "undefined"

/-- Concrete blocks used as witnesses and counterexamples. -/
def sampleBlockA : List ℚ := [1/10, 0, 1/10, 0, 1/10, 0, 1/10, 0, 1/10, 0]

/-- Impulse block: loud enough to pass the RMS gate, but no lag is ever
recorded as rising, while lag 0 always has correlation 1 > 0.01. -/
def sampleBlockB : List ℚ := [1, 0, 0, 0, 0, 0, 0, 0, 0, 0]

/-- Block on which the scan exits into refinement at offset 4 = blockLength/2 - 1,
whose sub-lag search then reads past the end of the block. -/
def sampleBlockC : List ℚ :=
  [-2/10, -1/10, -1/10, -1/10, -2/10, -3/10, -1/10, -2/10, -1/10, -3/10]

/-- Block for the in-bounds refinement witness. -/
def sampleBlockD : List ℚ := List.replicate 40 0

/-- Concrete engine state with nonempty histories, for witnesses. -/
noncomputable def sampleStateA : TunerState :=
  { frequencyBuffer := [220, 230]
    smoothedCents := 7
    noteBuffer := ["A", "B"]
    noteDisplay := "A"
    frequencyDisplay := some 225
    flatSharpIndicator := "Sharp"
    needleAngle := 3 }

/-- Second concrete engine state with nonempty histories, for witnesses. -/
noncomputable def sampleStateB : TunerState :=
  { frequencyBuffer := [100]
    smoothedCents := -4
    noteBuffer := ["G"]
    noteDisplay := "G"
    frequencyDisplay := some 100
    flatSharpIndicator := "Flat"
    needleAngle := -2 }

/-! ### Helper lemmas -/

lemma noteFromPitch_440 : noteFromPitch 440 = 69 := by
  unfold noteFromPitch
  norm_num [Real.log_one]

lemma frequencyFromNoteNumber_69 : frequencyFromNoteNumber 69 = 440 := by
  unfold frequencyFromNoteNumber
  norm_num [Real.rpow_zero]

lemma centsOffFromPitch_440_69 : centsOffFromPitch 440 69 = 0 := by
  unfold centsOffFromPitch
  rw [frequencyFromNoteNumber_69]
  norm_num [Real.log_one]

/-! ### Claim theorems -/

/-- C4: the pitch mapper equals its reference definition: for every freq > 0
and note n, `noteFromPitch freq = round(12 * log2(freq/440)) + 69` and
`centsOffFromPitch freq n = floor(1200 * log2(freq / (440 * 2^((n-69)/12))))`;
in particular `noteFromPitch 440 = 69` and `centsOffFromPitch 440 69 = 0`. -/
theorem pitchMapper_matches_reference (freq : ℝ) (n : ℤ) (hfreq : 0 < freq) :
    noteFromPitch freq = spec_noteIndexFromFrequency freq ∧
    centsOffFromPitch freq n = spec_centsOffset freq n ∧
    noteFromPitch 440 = 69 ∧ centsOffFromPitch 440 69 = 0 := by
  refine ⟨?_, ?_, noteFromPitch_440, centsOffFromPitch_440_69⟩
  · unfold noteFromPitch spec_noteIndexFromFrequency Real.logb
    rfl
  · unfold centsOffFromPitch spec_centsOffset frequencyFromNoteNumber Real.logb
    rw [mul_div_assoc]

theorem pitchMapper_matches_reference_witness :
    (0:ℝ) < 440 ∧
    (noteFromPitch 440 = spec_noteIndexFromFrequency 440 ∧
     centsOffFromPitch 440 69 = spec_centsOffset 440 69 ∧
     noteFromPitch 440 = 69 ∧ centsOffFromPitch 440 69 = 0) :=
  ⟨by norm_num, pitchMapper_matches_reference 440 69 (by norm_num)⟩

/-- C5: a block whose RMS is below the 0.01 noise floor (equivalently, whose
squared RMS is below 1/10000) makes `autoCorrelate` return the no-pitch
sentinel -1, before the lag scan is entered. -/
theorem autoCorrelate_low_rms_no_pitch (b : List ℚ) (sampleRate : ℚ)
    (h : rmsSq b < 1/10000) : autoCorrelate b sampleRate = -1 := by
  unfold autoCorrelate
  exact if_pos h

theorem autoCorrelate_low_rms_no_pitch_witness :
    rmsSq (List.replicate 2048 0) < 1/10000 ∧
      autoCorrelate (List.replicate 2048 0) 44100 = -1 := by
  have h : rmsSq (List.replicate 2048 0) < 1/10000 := by
    norm_num [rmsSq, List.map_replicate, List.sum_replicate]
  exact ⟨h, autoCorrelate_low_rms_no_pitch _ _ h⟩

/-- C6: on a cycle with no valid pitch (sentinel, or not positive; every real
is finite), both histories become empty immediately, whatever they held, and
the outputs are driven to the neutral no-signal state with needle angle 0. -/
theorem updatePitch_invalid_resets (s : TunerState) (ac : ℝ)
    (h : ¬ validEstimate ac) :
    (updatePitch s ac).frequencyBuffer = [] ∧
    (updatePitch s ac).noteBuffer = [] ∧
    (updatePitch s ac).noteDisplay = "-" ∧
    (updatePitch s ac).frequencyDisplay = none ∧
    (updatePitch s ac).flatSharpIndicator = "" ∧
    (updatePitch s ac).needleAngle = 0 := by
  unfold updatePitch
  rw [if_neg h]
  refine ⟨rfl, rfl, rfl, rfl, rfl, ?_⟩
  show setNeedleAngle 0 = 0
  unfold setNeedleAngle
  norm_num

theorem updatePitch_invalid_resets_witness :
    ¬ validEstimate (-1) ∧
    ((updatePitch sampleStateA (-1)).frequencyBuffer = [] ∧
     (updatePitch sampleStateA (-1)).noteBuffer = [] ∧
     (updatePitch sampleStateA (-1)).noteDisplay = "-" ∧
     (updatePitch sampleStateA (-1)).frequencyDisplay = none ∧
     (updatePitch sampleStateA (-1)).flatSharpIndicator = "" ∧
     (updatePitch sampleStateA (-1)).needleAngle = 0) :=
  ⟨by norm_num [validEstimate], updatePitch_invalid_resets sampleStateA (-1)
    (by norm_num [validEstimate])⟩

/-- C7: a no-pitch cycle clears both histories and overrides the needle to
angle 0, but leaves the persistent smoothedCents scalar unchanged — it is
written only on valid-pitch cycles. -/
theorem updatePitch_invalid_preserves_smoothedCents (s : TunerState) (ac : ℝ)
    (h : ¬ validEstimate ac) :
    (updatePitch s ac).smoothedCents = s.smoothedCents ∧
    (updatePitch s ac).frequencyBuffer = [] ∧
    (updatePitch s ac).noteBuffer = [] ∧
    (updatePitch s ac).needleAngle = 0 := by
  unfold updatePitch
  rw [if_neg h]
  refine ⟨rfl, rfl, rfl, ?_⟩
  show setNeedleAngle 0 = 0
  unfold setNeedleAngle
  norm_num

theorem updatePitch_invalid_preserves_smoothedCents_witness :
    ¬ validEstimate 0 ∧
    ((updatePitch sampleStateB 0).smoothedCents = sampleStateB.smoothedCents ∧
     (updatePitch sampleStateB 0).frequencyBuffer = [] ∧
     (updatePitch sampleStateB 0).noteBuffer = [] ∧
     (updatePitch sampleStateB 0).needleAngle = 0) :=
  ⟨by norm_num [validEstimate], updatePitch_invalid_preserves_smoothedCents sampleStateB 0
    (by norm_num [validEstimate])⟩

lemma setNeedleAngle_zero : setNeedleAngle 0 = 0 := by
  unfold setNeedleAngle
  norm_num

lemma updatePitch_valid_frequencyBuffer (s : TunerState) (ac : ℝ) (h : validEstimate ac) :
    (updatePitch s ac).frequencyBuffer = frequencyStep ac s.frequencyBuffer := by
  unfold updatePitch frequencyStep
  rw [if_pos h]

lemma updatePitch_valid_noteBuffer (s : TunerState) (ac : ℝ) (h : validEstimate ac) :
    (updatePitch s ac).noteBuffer =
      (findMostFrequent (if noteBufferSize < (s.noteBuffer ++ [noteNameOf s ac]).length
        then (s.noteBuffer ++ [noteNameOf s ac]).tail
        else s.noteBuffer ++ [noteNameOf s ac])).2 := by
  unfold updatePitch noteNameOf smoothedFrequencyOf frequencyStep
  rw [if_pos h]

lemma updatePitch_valid_frequencyDisplay (s : TunerState) (ac : ℝ) (h : validEstimate ac) :
    (updatePitch s ac).frequencyDisplay =
      some ((frequencyStep ac s.frequencyBuffer).sum /
        ((frequencyStep ac s.frequencyBuffer).length : ℝ)) := by
  unfold updatePitch frequencyStep
  rw [if_pos h]

lemma updatePitch_not_valid (s : TunerState) (ac : ℝ) (h : ¬ validEstimate ac) :
    updatePitch s ac =
      { frequencyBuffer := []
        smoothedCents := s.smoothedCents
        noteBuffer := []
        noteDisplay := "-"
        frequencyDisplay := none
        flatSharpIndicator := ""
        needleAngle := setNeedleAngle 0 } := by
  unfold updatePitch
  rw [if_neg h]

lemma findMostFrequent_snd_length (arr : List String) :
    (findMostFrequent arr).2.length = arr.length - 1 := by
  unfold findMostFrequent
  simp [List.length_dropLast, List.length_mergeSort]

lemma frequencyStep_length (ac : ℝ) (l : List ℝ) (hl : l.length ≤ frequencyBufferSize) :
    (frequencyStep ac l).length ≤ frequencyBufferSize := by
  unfold frequencyStep
  split
  · simp only [List.length_tail, List.length_append, List.length_cons, List.length_nil]
    omega
  · rename_i hlt
    simp only [List.length_append, List.length_cons, List.length_nil] at hlt ⊢
    omega

lemma updatePitch_length_bounds (s : TunerState) (ac : ℝ)
    (h1 : s.frequencyBuffer.length ≤ frequencyBufferSize)
    (h2 : s.noteBuffer.length ≤ noteBufferSize) :
    (updatePitch s ac).frequencyBuffer.length ≤ frequencyBufferSize ∧
    (updatePitch s ac).noteBuffer.length ≤ noteBufferSize := by
  by_cases h : validEstimate ac
  · constructor
    · rw [updatePitch_valid_frequencyBuffer s ac h]
      exact frequencyStep_length ac s.frequencyBuffer h1
    · rw [updatePitch_valid_noteBuffer s ac h, findMostFrequent_snd_length]
      split
      · simp only [List.length_tail, List.length_append, List.length_cons, List.length_nil]
        omega
      · simp only [List.length_append, List.length_cons, List.length_nil]
        omega
  · rw [updatePitch_not_valid s ac h]
    constructor <;> simp

/-- C9: after every sequence of processing cycles starting from the empty
state, the frequency history holds at most 10 elements and the note history
at most 5. -/
theorem history_lengths_bounded (acs : List ℝ) :
    (runCycles tunerInit acs).frequencyBuffer.length ≤ frequencyBufferSize ∧
    (runCycles tunerInit acs).noteBuffer.length ≤ noteBufferSize := by
  have main : ∀ (l : List ℝ) (s : TunerState),
      s.frequencyBuffer.length ≤ frequencyBufferSize →
      s.noteBuffer.length ≤ noteBufferSize →
      (runCycles s l).frequencyBuffer.length ≤ frequencyBufferSize ∧
      (runCycles s l).noteBuffer.length ≤ noteBufferSize := by
    intro l
    induction l with
    | nil => intro s h1 h2; exact ⟨h1, h2⟩
    | cons a tl ih =>
      intro s h1 h2
      have step := updatePitch_length_bounds s a h1 h2
      simp only [runCycles, List.foldl_cons] at *
      exact ih (updatePitch s a) step.1 step.2
  exact main acs tunerInit (by simp [tunerInit]) (by simp [tunerInit])

lemma runCycles_replicate_fb (F : ℝ) (hF : validEstimate F) :
    ∀ (n : ℕ) (s : TunerState), s.frequencyBuffer.length ≤ frequencyBufferSize →
      (runCycles s (List.replicate n F)).frequencyBuffer =
        (s.frequencyBuffer ++ List.replicate n F).drop
          (s.frequencyBuffer.length + n - frequencyBufferSize) := by
  intro n
  induction n with
  | zero =>
    intro s hs
    have h0 : s.frequencyBuffer.length - frequencyBufferSize = 0 := by omega
    simp [runCycles, h0]
  | succ n ih =>
    intro s hs
    have hstep := updatePitch_valid_frequencyBuffer s F hF
    have hlen : (updatePitch s F).frequencyBuffer.length ≤ frequencyBufferSize := by
      rw [hstep]; exact frequencyStep_length F s.frequencyBuffer hs
    have hrun : runCycles s (List.replicate (n+1) F) =
        runCycles (updatePitch s F) (List.replicate n F) := by
      rw [List.replicate_succ]
      simp [runCycles]
    rw [hrun, ih (updatePitch s F) hlen, hstep]
    unfold frequencyStep
    split
    · rename_i hgt
      simp only [List.length_append, List.length_cons, List.length_nil] at hgt
      obtain ⟨a, l2, hfb⟩ : ∃ a l2, s.frequencyBuffer = a :: l2 := by
        cases hc : s.frequencyBuffer with
        | nil => rw [hc] at hgt; simp [frequencyBufferSize] at hgt
        | cons a l2 => exact ⟨a, l2, rfl⟩
      rw [hfb] at hs hgt ⊢
      simp only [List.length_cons, List.length_nil] at hs hgt
      have hl9 : l2.length + 1 = frequencyBufferSize := by omega
      simp only [List.cons_append, List.tail_cons, List.append_assoc,
        List.singleton_append, List.nil_append, List.length_append, List.length_cons,
        List.length_nil, zero_add]
      rw [← List.replicate_succ]
      have eidx : l2.length + 1 + n - frequencyBufferSize = n := by omega
      have eidx2 : l2.length + 1 + (n + 1) - frequencyBufferSize = n + 1 := by omega
      rw [eidx, eidx2, List.drop_succ_cons]
    · simp only [List.append_assoc, List.singleton_append, List.nil_append,
        List.length_append, List.length_cons, List.length_nil, zero_add]
      rw [← List.replicate_succ]
      congr 1
      omega

/-- C10: feeding the same valid frequency F > 0 for at least 10 consecutive
cycles, from any engine state whose frequency history respects its capacity
invariant, leaves the frequency history holding exactly ten copies of F, so
the smoothed frequency — its arithmetic mean — equals exactly F. -/
theorem smoothedFrequency_converges (s : TunerState) (F : ℝ) (n : ℕ)
    (hs : s.frequencyBuffer.length ≤ frequencyBufferSize)
    (hF : 0 < F) (hn : frequencyBufferSize ≤ n) :
    (runCycles s (List.replicate n F)).frequencyBuffer =
      List.replicate frequencyBufferSize F ∧
    (runCycles s (List.replicate n F)).frequencyDisplay = some F := by
  have hfbs : frequencyBufferSize = 10 := rfl
  have hvalid : validEstimate F := by
    refine ⟨fun hEq => ?_, hF⟩
    rw [hEq] at hF
    linarith
  have hfb : (runCycles s (List.replicate n F)).frequencyBuffer =
      List.replicate frequencyBufferSize F := by
    rw [runCycles_replicate_fb F hvalid n s hs]
    simp only [hfbs]
    have hidx : s.frequencyBuffer.length + n - 10 =
        s.frequencyBuffer.length + (n - 10) := by omega
    rw [hidx, List.drop_append, List.drop_replicate]
    congr 1
    omega
  refine ⟨hfb, ?_⟩
  obtain ⟨m, rfl⟩ : ∃ m, n = m + 1 := ⟨n - 1, by omega⟩
  have hT : runCycles s (List.replicate (m+1) F) =
      updatePitch (runCycles s (List.replicate m F)) F := by
    rw [List.replicate_succ']
    simp [runCycles]
  rw [hT, updatePitch_valid_frequencyDisplay _ F hvalid]
  have hfb2 : frequencyStep F (runCycles s (List.replicate m F)).frequencyBuffer =
      List.replicate frequencyBufferSize F := by
    rw [← updatePitch_valid_frequencyBuffer _ F hvalid, ← hT]
    exact hfb
  rw [hfb2]
  have hsum : (List.replicate frequencyBufferSize F).sum /
      ((List.replicate frequencyBufferSize F).length : ℝ) = F := by
    simp only [List.sum_replicate, List.length_replicate, nsmul_eq_mul, hfbs]
    push_cast
    field_simp
  rw [hsum]

theorem smoothedFrequency_converges_witness :
    tunerInit.frequencyBuffer.length ≤ frequencyBufferSize ∧ (0:ℝ) < 440 ∧
      frequencyBufferSize ≤ 10 ∧
      ((runCycles tunerInit (List.replicate 10 440)).frequencyBuffer =
        List.replicate frequencyBufferSize 440 ∧
       (runCycles tunerInit (List.replicate 10 440)).frequencyDisplay = some 440) :=
  ⟨by simp [tunerInit], by norm_num, by norm_num [frequencyBufferSize],
    smoothedFrequency_converges tunerInit 440 10 (by simp [tunerInit]) (by norm_num)
      (by norm_num [frequencyBufferSize])⟩

lemma smoothedFrequencyOf_init_440 : smoothedFrequencyOf tunerInit 440 = 440 := by
  unfold smoothedFrequencyOf frequencyStep
  simp [tunerInit, frequencyBufferSize]

lemma noteNameOf_init_440 : noteNameOf tunerInit 440 = "A" := by
  unfold noteNameOf
  rw [smoothedFrequencyOf_init_440, noteFromPitch_440]
  rfl

/-- C3 (code-bug evaluation): one valid cycle from the empty state appends
the note name "A", but `findMostFrequent` sorts the note history in place and
`pop()` removes the element it reports, so the history ends the cycle empty
instead of holding ["A"] — the note history never accumulates, and computing
the stable note does change NoteHistory's contents. -/
theorem noteHistory_emptied_by_findMostFrequent :
    (updatePitch tunerInit 440).noteBuffer = [] ∧
    noteNameOf tunerInit 440 = "A" := by
  have hvalid : validEstimate 440 := by
    constructor
    · norm_num
    · norm_num
  refine ⟨?_, noteNameOf_init_440⟩
  rw [updatePitch_valid_noteBuffer tunerInit 440 hvalid]
  simp [tunerInit, noteBufferSize, findMostFrequent]

lemma autoCorrelateAux_no_rising (b : List ℚ) (sr : ℚ) (M : ℕ)
    (hnone : ∀ k < M, ¬ risingAt b M k) :
    ∀ fuel o, fuel + o = M →
      autoCorrelateAux b sr M fuel o (-1) 0 false (prevCorr b M o) = -1 := by
  intro fuel
  induction fuel with
  | zero =>
    intro o ho
    norm_num [autoCorrelateAux]
  | succ fuel ih =>
    intro o ho
    have hoM : o < M := by omega
    have hnr := hnone o hoM
    unfold risingAt corrAt at hnr
    simp only [autoCorrelateAux]
    rw [if_neg hnr]
    rw [if_neg (by simp : ¬ false = true)]
    have hpc : 1 - absDiffSum b M (o : ℤ) / (M : ℚ) = prevCorr b M (o + 1) := by
      unfold prevCorr corrAt
      simp
    rw [hpc]
    exact ih (o + 1) (by omega)

section
attribute [local semireducible] Rat.add Rat.sub Rat.mul Rat.inv

/-- C2 (counterexample): the impulse block passes the RMS gate, no lag is
ever recorded as rising, and lag 0 has correlation 1 > 0.01; the claim then
asserts the scan returns `sampleRate / bestOffset` rather than the no-pitch
sentinel, but `autoCorrelate` returns the sentinel -1 (bestCorrelation is
updated only inside the rising branch, so it stays 0 and the
`bestCorrelation > 0.01` fallback never fires). -/
theorem autoCorrelate_fallback_claim_counterexample :
    ¬ rmsSq sampleBlockB < 1/10000 ∧
    (∀ k < sampleBlockB.length / 2, ¬ risingAt sampleBlockB (sampleBlockB.length / 2) k) ∧
    (∃ k < sampleBlockB.length / 2, 1/100 < corrAt sampleBlockB (sampleBlockB.length / 2) k) ∧
    autoCorrelate sampleBlockB 8 = -1 ∧
    autoCorrelate sampleBlockB 8 ≠
      8 / (((bestScan sampleBlockB (sampleBlockB.length / 2) (sampleBlockB.length / 2)).1 : ℚ)) := by
  refine ⟨by decide, by decide, by decide, by decide, by decide⟩

/-- C2 (amended): when no lag is recorded as rising — even though some lag's
correlation exceeds 0.01 (lag 0 always has correlation 1) — bestCorrelation
stays 0, the fallback does not fire, and `autoCorrelate` returns the no-pitch
sentinel -1 instead of `sampleRate / bestOffset`. -/
theorem autoCorrelate_no_rising_returns_sentinel (b : List ℚ) (sr : ℚ)
    (hrms : ¬ rmsSq b < 1/10000)
    (hnone : ∀ k < b.length / 2, ¬ risingAt b (b.length / 2) k)
    (hsome : ∃ k < b.length / 2, 1/100 < corrAt b (b.length / 2) k) :
    autoCorrelate b sr = -1 := by
  show (if rmsSq b < 1/10000 then (-1 : ℚ)
    else autoCorrelateAux b sr (b.length / 2) (b.length / 2) 0 (-1) 0 false 1) = -1
  rw [if_neg hrms]
  exact autoCorrelateAux_no_rising b sr (b.length / 2) hnone (b.length / 2) 0 (by omega)

theorem autoCorrelate_no_rising_returns_sentinel_witness :
    ¬ rmsSq sampleBlockB < 1/10000 ∧
    (∀ k < sampleBlockB.length / 2, ¬ risingAt sampleBlockB (sampleBlockB.length / 2) k) ∧
    (∃ k < sampleBlockB.length / 2, 1/100 < corrAt sampleBlockB (sampleBlockB.length / 2) k) ∧
    autoCorrelate sampleBlockB 44100 = -1 :=
  ⟨by decide, by decide, by decide,
    autoCorrelate_no_rising_returns_sentinel sampleBlockB 44100 (by decide) (by decide)
      (by decide)⟩

end

lemma bestScan_succ (b : List ℚ) (M o : ℕ) :
    bestScan b M (o + 1) =
      if risingAt b M o ∧ (bestScan b M o).2 < corrAt b M o
      then ((o : ℤ), corrAt b M o) else bestScan b M o := by
  unfold bestScan
  rw [List.range_succ, List.foldl_append]
  rfl

lemma prevCorr_succ (b : List ℚ) (M o : ℕ) : prevCorr b M (o + 1) = corrAt b M o := by
  simp [prevCorr]

lemma autoCorrelateAux_exit (b : List ℚ) (sr : ℚ) (M t : ℕ) (ht : t < M)
    (hstop : ¬ risingAt b M t)
    (hfound : ∃ k < t, risingAt b M k)
    (hfirst : ∀ u < t, (∃ k < u, risingAt b M k) → risingAt b M u) :
    ∀ n o (fg : Bool), (fg = true ↔ ∃ k < o, risingAt b M k) → o + n = t →
      autoCorrelateAux b sr M (M - o) o (bestScan b M o).1 (bestScan b M o).2
        fg (prevCorr b M o) =
      sr / (((bestScan b M t).1 : ℚ) + ((correlationShift b M t : ℚ) - 8) / 32) := by
  intro n
  induction n with
  | zero =>
    intro o fg hfg ho
    have hot : o = t := by omega
    subst hot
    have hfgt : fg = true := hfg.mpr hfound
    subst hfgt
    have hMt : M - o = (M - (o + 1)) + 1 := by omega
    rw [hMt]
    simp only [autoCorrelateAux]
    have hstop2 : ¬ (9/10 < 1 - absDiffSum b M (o : ℤ) / (M : ℚ) ∧
        prevCorr b M o < 1 - absDiffSum b M (o : ℤ) / (M : ℚ)) := by
      have h2 := hstop
      unfold risingAt corrAt at h2
      exact h2
    rw [if_neg hstop2]
    simp
  | succ n ih =>
    intro o fg hfg ho
    have hoM : o < M := by omega
    have hMo : M - o = (M - (o + 1)) + 1 := by omega
    rw [hMo]
    simp only [autoCorrelateAux]
    by_cases hr : risingAt b M o
    · have hcond : 9/10 < 1 - absDiffSum b M (o : ℤ) / (M : ℚ) ∧
          prevCorr b M o < 1 - absDiffSum b M (o : ℤ) / (M : ℚ) := by
        have h2 := hr
        unfold risingAt corrAt at h2
        exact h2
      rw [if_pos hcond]
      rw [show 1 - absDiffSum b M (o : ℤ) / (M : ℚ) = corrAt b M o from rfl]
      have ih2 := ih (o + 1) true
        (⟨fun _ => ⟨o, by omega, hr⟩, fun _ => rfl⟩) (by omega)
      rw [bestScan_succ, prevCorr_succ] at ih2
      simp only [hr, true_and, apply_ite Prod.fst, apply_ite Prod.snd] at ih2
      exact ih2
    · have hnf : ¬ ∃ k < o, risingAt b M k := fun hex => hr (hfirst o (by omega) hex)
      have hfgf : fg = false := by
        cases fg
        · rfl
        · exact absurd (hfg.mp rfl) hnf
      subst hfgf
      have hcond : ¬ (9/10 < 1 - absDiffSum b M (o : ℤ) / (M : ℚ) ∧
          prevCorr b M o < 1 - absDiffSum b M (o : ℤ) / (M : ℚ)) := by
        have h2 := hr
        unfold risingAt corrAt at h2
        exact h2
      rw [if_neg hcond]
      rw [if_neg (by simp : ¬ false = true)]
      rw [show 1 - absDiffSum b M (o : ℤ) / (M : ℚ) = corrAt b M o from rfl]
      have ih2 := ih (o + 1) false
        (⟨fun h2 => absurd h2 (by simp), fun hex => by
          exfalso
          obtain ⟨k, hk, hrk⟩ := hex
          rcases Nat.lt_succ_iff_lt_or_eq.mp hk with hk2 | hk2
          · exact hnf ⟨k, hk2, hrk⟩
          · exact hr (hk2 ▸ hrk)⟩) (by omega)
      rw [bestScan_succ, prevCorr_succ] at ih2
      simp only [hr, false_and, if_false] at ih2
      exact ih2

/-- C1: on a block that passes the RMS gate, when the scan has recorded a
rising good correlation (some lag k < t with correlation > 0.9 exceeding the
previous lag's) and t is the first later lag whose correlation stops
satisfying that condition, `autoCorrelate` stops scanning at t and returns
`sampleRate / (bestOffset + (r - 8)/32)`, where bestOffset is the
highest-correlation accepted lag so far (`bestScan`) and r is the index
produced by the 16-step sub-lag search `correlationShift`. -/
theorem autoCorrelate_stops_at_first_drop (b : List ℚ) (sr : ℚ) (t : ℕ)
    (hrms : ¬ rmsSq b < 1/10000)
    (ht : t < b.length / 2)
    (hstop : ¬ risingAt b (b.length / 2) t)
    (hfound : ∃ k < t, risingAt b (b.length / 2) k)
    (hfirst : ∀ u < t, (∃ k < u, risingAt b (b.length / 2) k) →
      risingAt b (b.length / 2) u) :
    autoCorrelate b sr =
      sr / (((bestScan b (b.length / 2) t).1 : ℚ) +
        ((correlationShift b (b.length / 2) t : ℚ) - 8) / 32) := by
  show (if rmsSq b < 1/10000 then (-1 : ℚ)
    else autoCorrelateAux b sr (b.length / 2) (b.length / 2) 0 (-1) 0 false 1) = _
  rw [if_neg hrms]
  have h := autoCorrelateAux_exit b sr (b.length / 2) t ht hstop hfound hfirst t 0 false
    (⟨fun h2 => absurd h2 (by simp), fun hex => by
      exfalso
      obtain ⟨k, hk, -⟩ := hex
      omega⟩) (by omega)
  have e0 : bestScan b (b.length / 2) 0 = (-1, 0) := rfl
  have ep : prevCorr b (b.length / 2) 0 = 1 := rfl
  rw [e0, ep] at h
  simpa using h

section
attribute [local semireducible] Rat.add Rat.sub Rat.mul Rat.inv

theorem autoCorrelate_stops_at_first_drop_witness :
    (¬ rmsSq sampleBlockA < 1/10000) ∧ 3 < sampleBlockA.length / 2 ∧
    ¬ risingAt sampleBlockA 5 3 ∧
    (∃ k < 3, risingAt sampleBlockA 5 k) ∧
    (∀ u < 3, (∃ k < u, risingAt sampleBlockA 5 k) → risingAt sampleBlockA 5 u) ∧
    autoCorrelate sampleBlockA 44100 =
      44100 / (((bestScan sampleBlockA 5 3).1 : ℚ) +
        ((correlationShift sampleBlockA 5 3 : ℚ) - 8) / 32) :=
  ⟨by decide, by decide, by decide, by decide, by decide,
    autoCorrelate_stops_at_first_drop sampleBlockA 44100 3 (by decide) (by decide)
      (by decide) (by decide) (by decide)⟩

end

lemma readChecked_eq (b : List ℚ) (k : ℤ) (h1 : 0 ≤ k) (h2 : k < (b.length : ℤ)) :
    readChecked b k = some (readD b k) := by
  unfold readChecked readD
  rw [if_pos ⟨h1, h2⟩, if_pos ⟨h1, h2⟩]

lemma absDiffSumChecked_spec (b : List ℚ) (off : ℤ) :
    ∀ (l : List ℕ) (a : ℚ),
      (∀ j ∈ l, ((j : ℤ) < (b.length : ℤ)) ∧ 0 ≤ (j : ℤ) + off ∧
        (j : ℤ) + off < (b.length : ℤ)) →
      l.foldl (fun acc (j : ℕ) => do
          let x ← acc
          let y ← readChecked b (j : ℤ)
          let z ← readChecked b ((j : ℤ) + off)
          pure (x + |y - z|)) (some a) =
        some (l.foldl (fun acc (j : ℕ) =>
          acc + |readD b (j : ℤ) - readD b ((j : ℤ) + off)|) a) := by
  intro l
  induction l with
  | nil => intro a h; rfl
  | cons j l ih =>
    intro a h
    have hj := h j (List.mem_cons_self j l)
    simp only [List.foldl_cons]
    rw [readChecked_eq b (j : ℤ) (Int.natCast_nonneg j) hj.1,
      readChecked_eq b ((j : ℤ) + off) hj.2.1 hj.2.2]
    have hred : (do
        let x ← some a
        let y ← some (readD b (j : ℤ))
        let z ← some (readD b ((j : ℤ) + off))
        pure (x + |y - z|) : Option ℚ) =
        some (a + |readD b (j : ℤ) - readD b ((j : ℤ) + off)|) := rfl
    rw [hred]
    exact ih _ (fun x hx => h x (List.mem_cons_of_mem j hx))

lemma absDiffSumChecked_eq (b : List ℚ) (M : ℕ) (off : ℤ)
    (h : ∀ j, j < M → ((j : ℤ) < (b.length : ℤ) ∧ 0 ≤ (j : ℤ) + off ∧
      (j : ℤ) + off < (b.length : ℤ))) :
    absDiffSumChecked b M off = some (absDiffSum b M off) := by
  unfold absDiffSumChecked absDiffSum
  apply absDiffSumChecked_spec
  intro j hj
  exact h j (List.mem_range.mp hj)

lemma correlationShiftCheckedAux_eq (b : List ℚ) (M offset : ℕ)
    (h1 : 1 ≤ offset) (h14 : M + offset + 14 < b.length) :
    ∀ fuel i bo bc, fuel + i = 16 →
      correlationShiftCheckedAux b M offset fuel i bo bc =
        some (correlationShiftAux b M offset fuel i bo bc) := by
  intro fuel
  induction fuel with
  | zero => intro i bo bc h16; rfl
  | succ fuel ih =>
    intro i bo bc h16
    have hi : i ≤ 15 := by omega
    have hb1 : absDiffSumChecked b M ((offset : ℤ) + (i : ℤ)) =
        some (absDiffSum b M ((offset : ℤ) + (i : ℤ))) := by
      apply absDiffSumChecked_eq
      intro j hj
      refine ⟨by omega, by omega, by omega⟩
    have hb2 : absDiffSumChecked b M ((offset : ℤ) + (i : ℤ) - 1) =
        some (absDiffSum b M ((offset : ℤ) + (i : ℤ) - 1)) := by
      apply absDiffSumChecked_eq
      intro j hj
      refine ⟨by omega, by omega, by omega⟩
    simp only [correlationShiftCheckedAux, correlationShiftAux]
    rw [hb1, hb2]
    show (if _ < _ then some _ else correlationShiftCheckedAux b M offset fuel (i+1) _ _) = _
    split
    · rfl
    · exact ih (i + 1) _ _ (by omega)

/-- C8 (amended): main-scan reads are in bounds whenever `2 * maxSamples ≤
blockLength`, and the refinement search's reads are in bounds — the checked
search agrees with the default-read search — whenever `offset ≥ 1` and
`maxSamples + offset + 14 < blockLength`; exits near `blockLength / 2`
violate that bound and read past the block. -/
theorem correlationShift_reads_in_bounds (b : List ℚ) (M offset : ℕ) :
    (offset < M → 2 * M ≤ b.length →
      absDiffSumChecked b M (offset : ℤ) = some (absDiffSum b M (offset : ℤ))) ∧
    (1 ≤ offset → M + offset + 14 < b.length →
      correlationShiftChecked b M offset = some (correlationShift b M offset)) := by
  constructor
  · intro ho hM
    apply absDiffSumChecked_eq
    intro j hj
    refine ⟨by omega, by omega, by omega⟩
  · intro h1 h14
    unfold correlationShiftChecked correlationShift
    exact correlationShiftCheckedAux_eq b M offset h1 h14 16 0 (-1) 0 rfl

theorem correlationShift_reads_in_bounds_witness :
    absDiffSumChecked sampleBlockD 5 (1 : ℤ) = some (absDiffSum sampleBlockD 5 (1 : ℤ)) ∧
    correlationShiftChecked sampleBlockD 5 1 = some (correlationShift sampleBlockD 5 1) :=
  ⟨(correlationShift_reads_in_bounds sampleBlockD 5 1).1 (by decide) (by decide),
    (correlationShift_reads_in_bounds sampleBlockD 5 1).2 (by decide) (by decide)⟩

section
attribute [local semireducible] Rat.add Rat.sub Rat.mul Rat.inv

/-- C8 (counterexample): on `sampleBlockC` the scan reaches the refinement
step at offset 4 = blockLength/2 - 1, and the refinement search's third step
reads index 10 of the 10-sample block: the checked search returns `none`. -/
theorem correlationShift_out_of_bounds_counterexample :
    (¬ rmsSq sampleBlockC < 1/10000) ∧ 4 < sampleBlockC.length / 2 ∧
    ¬ risingAt sampleBlockC 5 4 ∧
    (∃ k < 4, risingAt sampleBlockC 5 k) ∧
    (∀ u < 4, (∃ k < u, risingAt sampleBlockC 5 k) → risingAt sampleBlockC 5 u) ∧
    correlationShiftChecked sampleBlockC 5 4 = none := by
  refine ⟨by decide, by decide, by decide, by decide, by decide, by decide⟩

end
